import Mathlib

/-!
Verification of the rank-correlation and gain-based metrics engine of the
rankeval repository (`src/sentence/ranking.py`, `src/evaluation/ranking/segment.py`,
`src/evaluation/ranking/set.py`).

Rank vectors are modelled as `List ℚ` (the Python code works on floats whose
values here are always exact small rationals).  Fallible Python code (asserts,
uncaught exceptions) is modelled with `Option`/`Except`.  The two external
library calls — `scipy.special.erfc` inside `kendall_tau_prob` and `math.log`
inside `ndgc_err` — are abstracted as explicit function parameters (`probF`,
`logf`), since they are not code of this repository.
-/

namespace RankEval

/-! ## Rank normalizer (`src/sentence/ranking.py`) -/

/-- `indexes(ranking_list, neededrank)`: all positions whose value equals the
given rank, in ascending index order.  The Python list comprehension
`[index for index, rank in enumerate(ranking_list) if neededrank == rank]`
is written as a recursion carrying the running index `k`. -/
def indexesFrom (v : ℚ) : List ℚ → ℕ → List ℕ
  | [], _ => []
  | x :: xs, k => if v = x then k :: indexesFrom v xs (k + 1) else indexesFrom v xs (k + 1)

/-- `indexes` from `ranking.py` (enumeration starts at 0). -/
def indexes (l : List ℚ) (v : ℚ) : List ℕ :=
  indexesFrom v l 0

/-- `_handle_tie(ranking_list, original_rank, modified_rank, ties_handling)` from
`ranking.py`: returns the value assigned to the tied group and the value the
iteration continues with.  Unrecognised policy strings fall through to the
final `return modified_rank, modified_rank`. -/
def handleTie (rankingList : List ℚ) (originalRank modifiedRank : ℚ) (tiesHandling : String) :
    ℚ × ℚ :=
  let count : ℕ := rankingList.count originalRank
  if count ≤ 1 then (modifiedRank, modifiedRank)
  else if tiesHandling = "minimize" then (modifiedRank, modifiedRank)
  else if tiesHandling = "floor" then (modifiedRank, modifiedRank + count - 1)
  else if tiesHandling = "ceiling" then (modifiedRank + count - 1, modifiedRank + count - 1)
  else if tiesHandling = "middle" then
    (modifiedRank - 1 + ((count : ℚ) + 1) / 2, modifiedRank + count - 1)
  else (modifiedRank, modifiedRank)

/-- The distinct values of a list (Python's `set(ranking_list)`; which duplicate
occurrence survives is irrelevant once sorted). -/
def pyDedup : List ℚ → List ℚ
  | [] => []
  | x :: xs => if x ∈ xs then pyDedup xs else x :: pyDedup xs

/-- Python's `sorted(set(ranking_list))`: the distinct values in ascending order. -/
def sortedDistinct (l : List ℚ) : List ℚ :=
  List.insertionSort (· ≤ ·) (pyDedup l)

/-- One group assignment of `normalize`: `for rank_index in rank_indexes:
normalized_rank[rank_index] = new_rank`.  Since `rank_indexes` are exactly the
positions of `raw` holding `v`, this writes `nv` at every position where the
raw value is `v` and keeps the accumulator elsewhere. -/
def assign (raw : List ℚ) (v nv : ℚ) (acc : List ℚ) : List ℚ :=
  List.zipWith (fun r c => if r = v then nv else c) raw acc

/-- The main loop of `normalize`: iterate over the ascending distinct raw
values, threading the `new_rank` counter through `_handle_tie`. -/
def normalizeLoop (raw : List ℚ) (ties : String) : List ℚ → List ℚ → ℚ → List ℚ
  | [], acc, _ => acc
  | v :: vs, acc, r =>
      let p := handleTie raw v (r + 1) ties
      normalizeLoop raw ties vs (assign raw v p.1 acc) p.2

/-- The ranking list computed by `normalize(ranking_list, ties=...)` just before
its final assertion: starts from `[0]*length` and `new_rank = 0`. -/
def normalizeRun (l : List ℚ) (ties : String) : List ℚ :=
  normalizeLoop l ties (sortedDistinct l) (List.replicate l.length 0) 0

/-- `normalize(ranking_list, ties=...)` from `ranking.py`, including the final
`assert(normalized_rank.count(0)==0)`; a firing assert is modelled as `none`. -/
def normalize (l : List ℚ) (ties : String) : Option (List ℚ) :=
  let res := normalizeRun l ties
  if res.count 0 = 0 then some res else none

/-- The value that the loop of `normalize` assigns to a raw value `x`, as a
function of the remaining distinct values `vs` and the current counter `r`
(0 when `x` does not occur in `vs`). -/
def loopVal (raw : List ℚ) (ties : String) : List ℚ → ℚ → ℚ → ℚ
  | [], _, _ => 0
  | v :: vs, r, x =>
      let p := handleTie raw v (r + 1) ties
      if x = v then p.1 else loopVal raw ties vs p.2 x

/-- `invert(ranking_list, **kwargs)` from `ranking.py`.  The source negates every
raw value and then executes `return normalize(inverted_ranking_list, kwargs)`.
`normalize` declares exactly one positional parameter (`ranking_list`) plus
`**kwargs`, so this call passes the kwargs dict as a second positional argument
and unconditionally raises `TypeError` before any normalization happens.  The
negated list is still built first, as in the source; the raised exception is
modelled as the error value. -/
def invert (l : List ℚ) (_ties : String) : Except String (List ℚ) :=
  let _invertedRankingList := l.map (fun item => -1 * item)
  Except.error "TypeError: normalize() takes exactly 1 argument (2 given)"

/-! ## Segment metrics (`src/evaluation/ranking/segment.py`) -/

/-- `itertools.combinations(vector, 2)`: all unordered index pairs `(i, j)`,
`i < j`, of values, in ascending index-pair enumeration order. -/
def combPairs : List ℚ → List (ℚ × ℚ)
  | [] => []
  | x :: xs => xs.map (fun y => (x, y)) ++ combPairs xs

/-- Running counters of the pair-classification loop of `kendall_tau`. -/
structure KTCounts where
  concordant : ℕ
  discordant : ℕ
  original_ties : ℕ
  predicted_ties : ℕ
  pairs : ℕ
deriving DecidableEq, Repr

/-- The `if`/`elif` classification chain of the pair loop of `kendall_tau` on an
original pair `(oi, oj)` and a predicted pair `(qi, qj)`: how much the pair adds
to the concordant and to the discordant counter.  In source order: sentinel
exclusion, original-tie exclusion, concordance, unpenalized predicted tie,
discordance. -/
def ktClass (excludeTies penalizePredictedTies : Bool) (oi oj qi qj : ℚ) : ℕ × ℕ :=
  if oi = -1 ∨ oj = -1 then (0, 0)
  else if oi = oj ∧ excludeTies then (0, 0)
  else if (oi > oj ∧ qi > qj) ∨ (oi < oj ∧ qi < qj) ∨ (oi = oj ∧ qi = qj) then (1, 0)
  else if qi = qj ∧ ¬penalizePredictedTies then (0, 0)
  else (0, 1)

/-- One iteration of the pair loop of `kendall_tau`: the general statistics
(`pairs`, tie counters) are always incremented, the concordant/discordant
counters as `ktClass` dictates. -/
def ktStep (excludeTies penalizePredictedTies : Bool) (a : KTCounts) (op qp : ℚ × ℚ) :
    KTCounts :=
  let c := ktClass excludeTies penalizePredictedTies op.1 op.2 qp.1 qp.2
  ⟨a.concordant + c.1, a.discordant + c.2,
    a.original_ties + (if op.1 = op.2 then 1 else 0),
    a.predicted_ties + (if qp.1 = qp.2 then 1 else 0),
    a.pairs + 1⟩

/-- The named tuple returned by `kendall_tau` (`prob` is `None` exactly when
`tau` is: the `ZeroDivisionError` branch sets both). -/
structure KTResult where
  tau : Option ℚ
  prob : Option ℚ
  concordant : ℕ
  discordant : ℕ
  all_pairs_count : ℕ
  original_ties : ℕ
  predicted_ties : ℕ
  pairs : ℕ
deriving DecidableEq, Repr

/-- The body of `kendall_tau` after both vectors have been normalized.
`probF` stands for `kendall_tau_prob`, whose value is produced by the external
`scipy.special.erfc`; it is passed the computed tau and `all_pairs_count`. -/
def kendallTauCore (probF : ℚ → ℕ → ℚ) (pn on' : List ℚ)
    (excludeTies penalizePredictedTies invertRanks : Bool) : KTResult :=
  let inv : ℚ := if invertRanks then -1 else 1
  let predictedPairs := combPairs pn
  let originalPairs := (combPairs on').map (fun p => (inv * p.1, inv * p.2))
  let a := (originalPairs.zip predictedPairs).foldl
    (fun a pq => ktStep excludeTies penalizePredictedTies a pq.1 pq.2) ⟨0, 0, 0, 0, 0⟩
  let allPairsCount := a.concordant + a.discordant
  let tau : Option ℚ :=
    if allPairsCount = 0 then none
    else some (((a.concordant : ℚ) - (a.discordant : ℚ)) / (allPairsCount : ℚ))
  { tau := tau
    prob := tau.map (fun t => probF t allPairsCount)
    concordant := a.concordant
    discordant := a.discordant
    all_pairs_count := allPairsCount
    original_ties := a.original_ties
    predicted_ties := a.predicted_ties
    pairs := a.pairs }

/-- `kendall_tau(predicted_rank_vector, original_rank_vector, **kwargs)` from
`segment.py`.  Both vectors are first normalized under `ties` (default
`'ceiling'` at this call level); a firing normalization assert propagates as
`none`.  Defaults of the remaining kwargs: `exclude_ties = True`,
`penalize_predicted_ties = True`, `invert_ranks = False`. -/
def kendallTau (probF : ℚ → ℕ → ℚ) (predicted original : List ℚ) (ties : String)
    (excludeTies penalizePredictedTies invertRanks : Bool) : Option KTResult :=
  match normalize predicted ties, normalize original ties with
  | some pn, some on' =>
      some (kendallTauCore probF pn on' excludeTies penalizePredictedTies invertRanks)
  | _, _ => none

/-- The `KTResult` that `kendall_tau` always produces (its normalizations never
fail; see `normalize_eq_some`). -/
def kendallTauRun (probF : ℚ → ℕ → ℚ) (predicted original : List ℚ) (ties : String)
    (excludeTies penalizePredictedTies invertRanks : Bool) : KTResult :=
  kendallTauCore probF (normalizeRun predicted ties) (normalizeRun original ties)
    excludeTies penalizePredictedTies invertRanks

/-- `Ranking.integers()`: each value is passed through `int(round(float(i), 0))`.
On the whole non-negative values produced by a `'ceiling'` normalization this
agrees with Mathlib's `round`. -/
def intRanking (l : List ℚ) : List ℤ :=
  l.map (fun x => round x)

/-- Python's `min` over a list: `ValueError` on the empty list, modelled `none`. -/
def pyMin (l : List ℚ) : Option ℚ :=
  match l with
  | [] => none
  | x :: xs => some (xs.foldl min x)

/-- Python list item assignment `gains[idx] = v`: a negative index counts from
the end, an index out of `[-len, len)` raises `IndexError` (modelled `none`). -/
def listSet (l : List ℚ) (idx : ℤ) (v : ℚ) : Option (List ℚ) :=
  if 0 ≤ idx ∧ idx < (l.length : ℤ) then some (l.set idx.toNat v)
  else if -(l.length : ℤ) ≤ idx ∧ idx < 0 then some (l.set (idx + (l.length : ℤ)).toNat v)
  else none

/-- The `for j in range(n)` loop of `_calculate_gains`:
`gains[r[j]-1] = (2**l[j]-1.0)/expn` with `l[j] = n - original[j] + 1`. -/
def calcGainsLoop (r lrel : List ℤ) (n : ℕ) : List ℕ → List ℚ → Except String (List ℚ)
  | [], gains => Except.ok gains
  | j :: js, gains =>
      match r.get? j, lrel.get? j with
      | some rj, some lj =>
          match listSet gains (rj - 1) (((2 : ℚ) ^ lj - 1) / (2 : ℚ) ^ n) with
          | some gains' => calcGainsLoop r lrel n js gains'
          | none => Except.error "IndexError"
      | _, _ => Except.error "IndexError"

/-- `_calculate_gains(predicted_rank_vector, original_rank_vector)` from
`segment.py`: builds the gain-by-predicted-position array and then executes
`assert min(gains)>=0, 'Not all ranks present'` (on an empty gains list,
`min` itself raises `ValueError`). -/
def calculateGains (r original : List ℤ) : Except String (List ℚ) :=
  let n := original.length
  let lrel := original.map (fun i => (n : ℤ) - i + 1)
  match calcGainsLoop r lrel n (List.range n) (List.replicate n 0) with
  | Except.error e => Except.error e
  | Except.ok gains =>
      match pyMin gains with
      | none => Except.error "ValueError: min() arg is an empty sequence"
      | some m => if 0 ≤ m then Except.ok gains else Except.error "Not all ranks present"

/-- The ERR loop of `ndgc_err`: `err += p*gains[j]/(j+1.0); p *= 1-gains[j]`. -/
def errLoop : List ℚ → ℕ → ℚ → ℚ → ℚ
  | [], _, _, err => err
  | g :: gs, j, p, err => errLoop gs (j + 1) (p * (1 - g)) (err + p * g / ((j : ℚ) + 1))

/-- `sum([g/log(j+2) for (j,g) in enumerate(gs)])` with the external `math.log`
abstracted as `logf` (the true `math.log (j+2)` is strictly positive). -/
def dcgSum (logf : ℕ → ℚ) : List ℚ → ℕ → ℚ
  | [], _ => 0
  | g :: gs, j => g / logf (j + 2) + dcgSum logf gs (j + 1)

/-- `idcg(gains, k)` from `segment.py`: sort the gains ascending, reverse, cut
at `k`, and sum the discounted gains. -/
def idcgF (logf : ℕ → ℚ) (gains : List ℚ) (k : ℕ) : ℚ :=
  dcgSum logf ((List.insertionSort (· ≤ ·) gains).reverse.take k) 0

/-- `ndgc_err(predicted_rank_vector, original_rank_vector, k=None)` from
`segment.py`.  Both vectors are normalized with `'ceiling'` and coerced to
integers; `if not k: k = n` treats both `None` and `0` as unset; the length
assert and `_calculate_gains` can raise; `if ideal_dcg:` treats an ideal DCG
of `0` as the degenerate `ndcg = 1.0` case. -/
def ndgcErr (logf : ℕ → ℚ) (predicted original : List ℚ) (k0 : Option ℕ) :
    Except String (ℚ × ℚ) :=
  match normalize predicted "ceiling", normalize original "ceiling" with
  | some pn, some on' =>
      let r := intRanking pn
      let l := intRanking on'
      let n := l.length
      let k := match k0 with
        | none => n
        | some 0 => n
        | some m => m
      if r.length ≠ n then Except.error "Expected ranks mismatch" else
      match calculateGains r l with
      | Except.error e => Except.error e
      | Except.ok gains =>
          let err := errLoop gains 0 1 0
          let dcg := dcgSum logf (gains.take k) 0
          let idealDcg := idcgF logf gains k
          let ndcg := if idealDcg = 0 then 1 else dcg / idealDcg
          Except.ok (ndcg, err)
  | _, _ => Except.error "AssertionError"

/-- `getAll pn idxs` models the list comprehension
`[predicted_rank_vector[index] for index in best_original_rank_indexes]`
(`IndexError` on an out-of-range index is modelled `none`; the indexes produced
by `indexes` are never negative). -/
def getAll (l : List ℚ) : List ℕ → Option (List ℚ)
  | [] => some []
  | i :: is' => match l.get? i, getAll l is' with
      | some v, some vs => some (v :: vs)
      | _, _ => none

/-- `reciprocal_rank(predicted_rank_vector, original_rank_vector, **kwargs)` from
`segment.py` (`ties` defaults to `'ceiling'`): normalize both vectors, find the
positions of the best (minimum) original rank, take the minimum predicted value
at those positions, and return its reciprocal. -/
def reciprocalRank (predicted original : List ℚ) (ties : String) : Option ℚ :=
  match normalize predicted ties, normalize original ties with
  | some pn, some on' =>
      match pyMin on' with
      | none => none
      | some best =>
          match getAll pn (indexes on' best) with
          | none => none
          | some vals =>
              match pyMin vals with
              | none => none
              | some m => some (1 / m)
  | _, _ => none

/-! ## Set aggregator (`src/evaluation/ranking/set.py`) -/

/-- The accumulator of the segment loop of `kendall_tau_set`.  The fields
`last_predicted_ties` and `last_len` record the values that the Python loop
variables `predicted_ties` and `predicted_rank_vector` hold after the loop —
lines 71–72 of `set.py` read exactly those leaked loop variables. -/
structure SetAcc where
  segtaus : List ℚ
  segprobs : List ℚ
  concordant : ℕ
  discordant : ℕ
  valid_pairs : ℕ
  original_ties : ℕ
  predicted_ties : ℕ
  pairs_overall : ℕ
  sentences_with_ties : ℕ
  last_predicted_ties : ℕ
  last_len : ℕ
deriving DecidableEq, Repr

/-- The per-segment tau kept by `if segtau and segprob: segtaus.append(segtau)`:
`None` and `0.0` are falsy, so a segment's tau enters the average only when
both its tau and its prob are defined and non-zero. -/
def keptTau (r : KTResult) : Option ℚ :=
  match r.tau, r.prob with
  | some t, some p => if t ≠ 0 ∧ p ≠ 0 then some t else none
  | _, _ => none

/-- The per-segment prob kept by the same truthiness test. -/
def keptProb (r : KTResult) : Option ℚ :=
  match r.tau, r.prob with
  | some t, some p => if t ≠ 0 ∧ p ≠ 0 then some p else none
  | _, _ => none

/-- One iteration of the segment loop of `kendall_tau_set` given that segment's
`kendall_tau` result. -/
def setStep (a : SetAcc) (seg : List ℚ × List ℚ) (r : KTResult) : SetAcc :=
  { segtaus := a.segtaus ++ (keptTau r).toList
    segprobs := a.segprobs ++ (keptProb r).toList
    concordant := a.concordant + r.concordant
    discordant := a.discordant + r.discordant
    valid_pairs := a.valid_pairs + r.all_pairs_count
    original_ties := a.original_ties + r.original_ties
    predicted_ties := a.predicted_ties + r.predicted_ties
    pairs_overall := a.pairs_overall + r.pairs
    sentences_with_ties := a.sentences_with_ties + (if 0 < r.predicted_ties then 1 else 0)
    last_predicted_ties := r.predicted_ties
    last_len := seg.1.length }

/-- The segment loop of `kendall_tau_set` over `zip(predicted_rank_vectors,
original_rank_vectors)`; a per-segment exception propagates as `none`. -/
def kendallTauSetLoop (probF : ℚ → ℕ → ℚ) (ties : String) (et pt ir : Bool) :
    List (List ℚ × List ℚ) → SetAcc → Option SetAcc
  | [], a => some a
  | s :: rest, a =>
      match kendallTau probF s.1 s.2 ties et pt ir with
      | none => none
      | some r => kendallTauSetLoop probF ties et pt ir rest (setStep a s r)

/-- The pure fold the loop computes (every per-segment `kendall_tau` succeeds). -/
def setRun (probF : ℚ → ℕ → ℚ) (ties : String) (et pt ir : Bool)
    (segs : List (List ℚ × List ℚ)) (a : SetAcc) : SetAcc :=
  segs.foldl (fun a s => setStep a s (kendallTauRun probF s.1 s.2 ties et pt ir)) a

/-- The stats dictionary returned by `kendall_tau_set`.  `tau_avg_seg` is
`np.average(segtaus)`, which is NaN on an empty list (modelled `none`);
`tau_avg_seg_prob` is `np.product(segprobs)` (1 on an empty list). -/
structure SetStats where
  tau : ℚ
  tau_prob : ℚ
  tau_avg_seg : Option ℚ
  tau_avg_seg_prob : ℚ
  tau_concordant : ℕ
  tau_discordant : ℕ
  tau_valid_pairs : ℕ
  tau_all_pairs : ℕ
  tau_original_ties : ℕ
  tau_predicted_ties : ℕ
  tau_predicted_ties_per : ℚ
  tau_sentence_ties : ℕ
  tau_sentence_ties_per : ℚ
deriving DecidableEq, Repr

/-- `kendall_tau_set(predicted_rank_vectors, original_rank_vectors, **kwargs)`
from `set.py`.  After the loop: `tau = 1.00*(concordant - discordant) /
(concordant + discordant)` (an uncaught `ZeroDivisionError` when no pair was
counted), `prob = kendall_tau_prob(tau, valid_pairs)`,
`predicted_ties_avg = 100.00*predicted_ties / pairs_overall` — `predicted_ties`
is the loop variable of the LAST segment, not the overall sum — and
`sentence_ties_avg = 100.00*sentences_with_ties / len(predicted_rank_vector)`
— again the last loop variable, i.e. the last segment's length, not the number
of segments. -/
def kendallTauSet (probF : ℚ → ℕ → ℚ) (preds origs : List (List ℚ)) (ties : String)
    (et pt ir : Bool) : Except String SetStats :=
  match kendallTauSetLoop probF ties et pt ir (preds.zip origs)
      ⟨[], [], 0, 0, 0, 0, 0, 0, 0, 0, 0⟩ with
  | none => Except.error "AssertionError"
  | some a =>
      if a.concordant + a.discordant = 0 then Except.error "ZeroDivisionError" else
      let tau := ((a.concordant : ℚ) - (a.discordant : ℚ)) /
        ((a.concordant : ℚ) + (a.discordant : ℚ))
      let prob := probF tau a.valid_pairs
      let avgSegTau : Option ℚ :=
        if a.segtaus.isEmpty then none else some (a.segtaus.sum / (a.segtaus.length : ℚ))
      let avgSegProb := a.segprobs.prod
      if a.pairs_overall = 0 then Except.error "ZeroDivisionError" else
      if a.last_len = 0 then Except.error "ZeroDivisionError" else
      Except.ok
        { tau := tau
          tau_prob := prob
          tau_avg_seg := avgSegTau
          tau_avg_seg_prob := avgSegProb
          tau_concordant := a.concordant
          tau_discordant := a.discordant
          tau_valid_pairs := a.valid_pairs
          tau_all_pairs := a.pairs_overall
          tau_original_ties := a.original_ties
          tau_predicted_ties := a.predicted_ties
          tau_predicted_ties_per := 100 * (a.last_predicted_ties : ℚ) / (a.pairs_overall : ℚ)
          tau_sentence_ties := a.sentences_with_ties
          tau_sentence_ties_per := 100 * (a.sentences_with_ties : ℚ) / (a.last_len : ℚ) }

/-- The loop of `avg_ndgc_err`: `k = kwargs.setdefault('k', len(predicted_rank_vector))`
is executed INSIDE the loop, so on the first iteration (when no `k` was passed)
the first segment's length is stored into `kwargs` and every later iteration's
`setdefault` returns that stored value.  The state `kw` models the kwargs
entry for `'k'`. -/
def avgNdgcErrLoop (logf : ℕ → ℚ) :
    List (List ℚ × List ℚ) → Option ℕ → List ℚ → List ℚ →
      Except String (List ℚ × List ℚ)
  | [], _, ns, es => Except.ok (ns, es)
  | (p, o) :: rest, kw, ns, es =>
      let k := match kw with
        | some v => v
        | none => p.length
      match ndgcErr logf p o (some k) with
      | Except.error e => Except.error e
      | Except.ok r => avgNdgcErrLoop logf rest (some k) (ns ++ [r.1]) (es ++ [r.2])

/-- `avg_ndgc_err(predicted_rank_vectors, original_rank_vectors, **kwargs)` from
`set.py`: per-segment `ndgc_err`, then `average(ndgc_list)`/`average(err_list)`
(NaN on empty input, modelled `none`). -/
def avgNdgcErr (logf : ℕ → ℚ) (preds origs : List (List ℚ)) (k0 : Option ℕ) :
    Except String (Option ℚ × Option ℚ) :=
  match avgNdgcErrLoop logf (preds.zip origs) k0 [] [] with
  | Except.error e => Except.error e
  | Except.ok (ns, es) =>
      if ns.isEmpty then Except.ok (none, none)
      else Except.ok (some (ns.sum / (ns.length : ℚ)), some (es.sum / (es.length : ℚ)))

/-- The sequence of cut-off values `k` that the loop of `avg_ndgc_err` passes to
`ndgc_err`, one per segment, mirroring the `kwargs.setdefault` threading of
`avgNdgcErrLoop`. -/
def avgNdgcErrKs : List (List ℚ × List ℚ) → Option ℕ → List ℕ
  | [], _ => []
  | (p, _) :: rest, kw =>
      let k := match kw with
        | some v => v
        | none => p.length
      k :: avgNdgcErrKs rest (some k)

/-- Modelled from the spec: `avg_ndgc_err` as §4.3 describes it — "per-segment
NDCG/ERR (cut-off `k` = that segment's length unless overridden), averaged
across segments".  This is the comparison definition following the spec's
words; it differs from the source only in taking each segment's own length as
the default cut-off instead of the cached first one. -/
def avgNdgcErrSpecModel (logf : ℕ → ℚ) (preds origs : List (List ℚ)) (k0 : Option ℕ) :
    Except String (Option ℚ × Option ℚ) :=
  let rec loop : List (List ℚ × List ℚ) → List ℚ → List ℚ →
      Except String (List ℚ × List ℚ)
    | [], ns, es => Except.ok (ns, es)
    | (p, o) :: rest, ns, es =>
        let k := match k0 with
          | some v => v
          | none => p.length
        match ndgcErr logf p o (some k) with
        | Except.error e => Except.error e
        | Except.ok r => loop rest (ns ++ [r.1]) (es ++ [r.2])
  match loop (preds.zip origs) [] [] with
  | Except.error e => Except.error e
  | Except.ok (ns, es) =>
      if ns.isEmpty then Except.ok (none, none)
      else Except.ok (some (ns.sum / (ns.length : ℚ)), some (es.sum / (es.length : ℚ)))

/-! ## Helper facts about the policy strings (used to evaluate `handleTie`). -/

theorem str_c_min : (("ceiling" : String) = "minimize") = False := by simp

theorem str_c_flr : (("ceiling" : String) = "floor") = False := by simp

theorem str_c_c : (("ceiling" : String) = "ceiling") = True := by simp

theorem str_f_min : (("floor" : String) = "minimize") = False := by simp

theorem str_f_f : (("floor" : String) = "floor") = True := by simp

theorem str_m_m : (("minimize" : String) = "minimize") = True := by simp

theorem str_mid_min : (("middle" : String) = "minimize") = False := by simp

theorem str_mid_flr : (("middle" : String) = "floor") = False := by simp

theorem str_mid_c : (("middle" : String) = "ceiling") = False := by simp

theorem str_mid_mid : (("middle" : String) = "middle") = True := by simp

/-! ## Helper facts for evaluating integer indices. -/

theorem toNat_lit_0 : Int.toNat 0 = 0 := rfl

theorem toNat_lit_1 : Int.toNat 1 = 1 := rfl

theorem toNat_lit_2 : Int.toNat 2 = 2 := rfl

theorem toNat_lit_3 : Int.toNat 3 = 3 := rfl

theorem toNat_lit_4 : Int.toNat 4 = 4 := rfl

/-! ## Structural lemmas about the normalizer -/

/-- The value `_handle_tie` assigns to a group never falls below the incoming
`modified_rank`. -/
theorem handleTie_fst_ge (l : List ℚ) (v m : ℚ) (ties : String) :
    m ≤ (handleTie l v m ties).1 := by
  unfold handleTie
  rcases le_or_lt (l.count v) 1 with h | h
  · simp [h]
  · have h' : ¬ (l.count v ≤ 1) := by omega
    have hc : (2 : ℚ) ≤ (l.count v : ℚ) := by exact_mod_cast h
    simp only [h', if_false]
    split_ifs <;> simp <;> linarith

/-- The value `_handle_tie` assigns never exceeds the rank the iteration
continues with. -/
theorem handleTie_fst_le_snd (l : List ℚ) (v m : ℚ) (ties : String) :
    (handleTie l v m ties).1 ≤ (handleTie l v m ties).2 := by
  unfold handleTie
  rcases le_or_lt (l.count v) 1 with h | h
  · simp [h]
  · have h' : ¬ (l.count v ≤ 1) := by omega
    have hc : (2 : ℚ) ≤ (l.count v : ℚ) := by exact_mod_cast h
    simp only [h', if_false]
    split_ifs <;> simp <;> linarith

theorem length_assign (raw acc : List ℚ) (v nv : ℚ) :
    (assign raw v nv acc).length = min raw.length acc.length := by
  simp [assign]

theorem assign_get? (raw : List ℚ) (v nv : ℚ) :
    ∀ (acc : List ℚ) (i : ℕ) (x : ℚ), acc.length = raw.length → raw.get? i = some x →
      (assign raw v nv acc).get? i = if x = v then some nv else acc.get? i := by
  induction raw with
  | nil => intro acc i x _ hx; simp at hx
  | cons r rs ih =>
      intro acc i x hlen hx
      cases acc with
      | nil => simp at hlen
      | cons c cs =>
          cases i with
          | zero =>
              simp only [List.get?_cons_zero, Option.some_inj] at hx
              subst hx
              simp only [assign, List.zipWith_cons_cons, List.get?_cons_zero]
              split_ifs <;> rfl
          | succ n =>
              simp only [List.get?_cons_succ] at hx
              have hlen' : cs.length = rs.length := by simpa using hlen
              simpa [assign] using ih cs n x hlen' hx

theorem length_normalizeLoop (raw : List ℚ) (ties : String) :
    ∀ (vs acc : List ℚ) (r : ℚ), acc.length = raw.length →
      (normalizeLoop raw ties vs acc r).length = acc.length := by
  intro vs
  induction vs with
  | nil => intro acc r _; simp [normalizeLoop]
  | cons v vs ih =>
      intro acc r hlen
      have hlen' : (assign raw v (handleTie raw v (r + 1) ties).1 acc).length = raw.length := by
        rw [length_assign, hlen, min_self]
      rw [normalizeLoop, ih _ _ hlen', hlen', hlen]

theorem normalizeLoop_get? (raw : List ℚ) (ties : String) :
    ∀ (vs : List ℚ), vs.Nodup →
      ∀ (acc : List ℚ) (r : ℚ) (i : ℕ) (x : ℚ), acc.length = raw.length →
        raw.get? i = some x →
        (normalizeLoop raw ties vs acc r).get? i =
          if x ∈ vs then some (loopVal raw ties vs r x) else acc.get? i := by
  intro vs
  induction vs with
  | nil => intro _ acc r i x _ _; simp [normalizeLoop]
  | cons w ws ih =>
      intro hnd acc r i x hlen hx
      have hndtail : ws.Nodup := (List.nodup_cons.mp hnd).2
      have hwnot : w ∉ ws := (List.nodup_cons.mp hnd).1
      have hlen' : (assign raw w (handleTie raw w (r + 1) ties).1 acc).length = raw.length := by
        rw [length_assign, hlen, min_self]
      rw [normalizeLoop, ih hndtail _ _ i x hlen' hx]
      by_cases hxw : x = w
      · subst hxw
        simp only [if_neg hwnot, List.mem_cons, true_or, if_pos, loopVal]
        rw [assign_get? raw x _ acc i x hlen hx]
        simp
      · by_cases hxws : x ∈ ws
        · simp [hxws, hxw, loopVal]
        · have hnot : x ∉ w :: ws := by simp [hxw, hxws]
          simp only [if_neg hxws, if_neg hnot]
          rw [assign_get? raw w _ acc i x hlen hx]
          simp [hxw]

theorem loopVal_ge (raw : List ℚ) (ties : String) :
    ∀ (vs : List ℚ) (r x : ℚ), x ∈ vs → r + 1 ≤ loopVal raw ties vs r x := by
  intro vs
  induction vs with
  | nil => intro r x hx; simp at hx
  | cons w ws ih =>
      intro r x hx
      rw [loopVal]
      by_cases hxw : x = w
      · simp only [hxw, if_pos rfl]
        exact handleTie_fst_ge raw w (r + 1) ties
      · have hxws : x ∈ ws := by
          rcases List.mem_cons.mp hx with h | h
          · exact absurd h hxw
          · exact h
        simp only [if_neg hxw]
        have h1 := ih (handleTie raw w (r + 1) ties).2 x hxws
        have h2 := handleTie_fst_ge raw w (r + 1) ties
        have h3 := handleTie_fst_le_snd raw w (r + 1) ties
        linarith

theorem loopVal_lt (raw : List ℚ) (ties : String) :
    ∀ (vs : List ℚ), vs.Pairwise (· < ·) →
      ∀ (r x y : ℚ), x ∈ vs → y ∈ vs → x < y →
        loopVal raw ties vs r x < loopVal raw ties vs r y := by
  intro vs
  induction vs with
  | nil => intro _ r x y hx _ _; simp at hx
  | cons w ws ih =>
      intro hp r x y hx hy hxy
      have hwlt : ∀ z ∈ ws, w < z := (List.pairwise_cons.mp hp).1
      have hptail : ws.Pairwise (· < ·) := (List.pairwise_cons.mp hp).2
      rw [loopVal, loopVal]
      by_cases hxw : x = w
      · subst hxw
        have hyx : ¬ (y = x) := fun h => absurd (h ▸ hxy) (lt_irrefl _)
        have hyws : y ∈ ws := by
          rcases List.mem_cons.mp hy with h | h
          · exact absurd h hyx
          · exact h
        simp only [if_pos rfl, if_neg hyx, if_true, eq_self_iff_true]
        have h1 := loopVal_ge raw ties ws (handleTie raw x (r + 1) ties).2 y hyws
        have h2 := handleTie_fst_le_snd raw x (r + 1) ties
        linarith
      · have hxws : x ∈ ws := by
          rcases List.mem_cons.mp hx with h | h
          · exact absurd h hxw
          · exact h
        have hyw : ¬ (y = w) := by
          intro h
          subst h
          exact absurd (hwlt x hxws) (not_lt.mpr (le_of_lt hxy))
        have hyws : y ∈ ws := by
          rcases List.mem_cons.mp hy with h | h
          · exact absurd h hyw
          · exact h
        simp only [if_neg hxw, if_neg hyw]
        exact ih hptail _ x y hxws hyws hxy


theorem mem_pyDedup {x : ℚ} : ∀ {l : List ℚ}, x ∈ pyDedup l ↔ x ∈ l := by
  intro l
  induction l with
  | nil => simp [pyDedup]
  | cons y ys ih =>
      rw [pyDedup]
      by_cases hy : y ∈ ys
      · rw [if_pos hy]
        constructor
        · intro h; exact List.mem_cons_of_mem y (ih.mp h)
        · intro h
          rcases List.mem_cons.mp h with h | h
          · exact ih.mpr (h ▸ hy)
          · exact ih.mpr h
      · rw [if_neg hy]
        constructor
        · intro h
          rcases List.mem_cons.mp h with h | h
          · exact h ▸ List.mem_cons_self y ys
          · exact List.mem_cons_of_mem y (ih.mp h)
        · intro h
          rcases List.mem_cons.mp h with h | h
          · exact h ▸ List.mem_cons_self y (pyDedup ys)
          · exact List.mem_cons_of_mem y (ih.mpr h)

theorem nodup_pyDedup : ∀ (l : List ℚ), (pyDedup l).Nodup := by
  intro l
  induction l with
  | nil => simp [pyDedup]
  | cons y ys ih =>
      rw [pyDedup]
      by_cases hy : y ∈ ys
      · rw [if_pos hy]; exact ih
      · rw [if_neg hy]
        exact List.nodup_cons.mpr ⟨fun h => hy (mem_pyDedup.mp h), ih⟩

theorem mem_sortedDistinct {x : ℚ} {l : List ℚ} : x ∈ sortedDistinct l ↔ x ∈ l :=
  ((List.perm_insertionSort (· ≤ ·) (pyDedup l)).mem_iff).trans mem_pyDedup

theorem nodup_sortedDistinct (l : List ℚ) : (sortedDistinct l).Nodup :=
  ((List.perm_insertionSort (· ≤ ·) (pyDedup l)).nodup_iff).mpr (nodup_pyDedup l)

theorem pairwise_lt_sortedDistinct (l : List ℚ) :
    (sortedDistinct l).Pairwise (· < ·) := by
  have hs : (sortedDistinct l).Pairwise (· ≤ ·) :=
    List.sorted_insertionSort (· ≤ ·) (pyDedup l)
  have hn : (sortedDistinct l).Pairwise (· ≠ ·) := nodup_sortedDistinct l
  exact (hs.and hn).imp (fun h => lt_of_le_of_ne h.1 h.2)

theorem length_normalizeRun (l : List ℚ) (ties : String) :
    (normalizeRun l ties).length = l.length := by
  rw [normalizeRun, length_normalizeLoop l ties _ _ _ (List.length_replicate _ _),
    List.length_replicate]

theorem normalizeRun_get? (l : List ℚ) (ties : String) (i : ℕ) (x : ℚ)
    (hx : l.get? i = some x) :
    (normalizeRun l ties).get? i = some (loopVal l ties (sortedDistinct l) 0 x) := by
  have hmem : x ∈ sortedDistinct l := mem_sortedDistinct.mpr (List.get?_mem hx)
  rw [normalizeRun, normalizeLoop_get? l ties (sortedDistinct l) (nodup_sortedDistinct l)
    _ _ i x (List.length_replicate _ _) hx, if_pos hmem]

theorem normalizeRun_one_le (l : List ℚ) (ties : String) :
    ∀ x ∈ normalizeRun l ties, 1 ≤ x := by
  intro x hx
  rcases List.mem_iff_get?.mp hx with ⟨i, hi⟩
  have hilt : i < l.length := by
    have : i < (normalizeRun l ties).length := by
      rcases List.get?_eq_some.mp hi with ⟨h, _⟩
      exact h
    rwa [length_normalizeRun] at this
  have hy : l.get? i = some (l.get ⟨i, hilt⟩) := List.get?_eq_get hilt
  set y := l.get ⟨i, hilt⟩ with hydef
  have := normalizeRun_get? l ties i y hy
  rw [this] at hi
  have hxy : x = loopVal l ties (sortedDistinct l) 0 y := by
    exact (Option.some_inj.mp hi).symm
  have hymem : y ∈ sortedDistinct l := mem_sortedDistinct.mpr (List.get?_mem hy)
  have := loopVal_ge l ties (sortedDistinct l) 0 y hymem
  rw [hxy]
  linarith

theorem normalize_eq_some (l : List ℚ) (ties : String) :
    RankEval.normalize l ties = some (normalizeRun l ties) := by
  rw [RankEval.normalize]
  have h0 : (0 : ℚ) ∉ normalizeRun l ties := by
    intro h
    have := normalizeRun_one_le l ties 0 h
    linarith
  simp [List.count_eq_zero.mpr h0]


theorem foldl_min_mem : ∀ (xs : List ℚ) (x : ℚ), xs.foldl min x ∈ x :: xs := by
  intro xs
  induction xs with
  | nil => intro x; simp
  | cons y ys ih =>
      intro x
      have := ih (min x y)
      rcases List.mem_cons.mp this with h | h
      · rcases min_choice x y with hm | hm
        · simp only [List.foldl_cons]
          rw [h, hm]
          exact List.mem_cons_self _ _
        · simp only [List.foldl_cons]
          rw [h, hm]
          exact List.mem_cons_of_mem _ (List.mem_cons_self _ _)
      · simp only [List.foldl_cons]
        exact List.mem_cons_of_mem _ (List.mem_cons_of_mem _ h)

theorem foldl_min_le : ∀ (xs : List ℚ) (x : ℚ),
    xs.foldl min x ≤ x ∧ ∀ y ∈ xs, xs.foldl min x ≤ y := by
  intro xs
  induction xs with
  | nil => intro x; simp
  | cons y ys ih =>
      intro x
      have h := ih (min x y)
      refine ⟨by rw [List.foldl_cons]; exact le_trans h.1 (min_le_left x y), ?_⟩
      intro z hz
      rcases List.mem_cons.mp hz with h' | h'
      · rw [List.foldl_cons, h']
        exact le_trans h.1 (min_le_right x y)
      · rw [List.foldl_cons]
        exact h.2 z h'

theorem pyMin_spec (l : List ℚ) (h : l ≠ []) :
    ∃ m, pyMin l = some m ∧ m ∈ l ∧ ∀ x ∈ l, m ≤ x := by
  match l with
  | [] => exact absurd rfl h
  | x :: xs =>
      refine ⟨xs.foldl min x, rfl, foldl_min_mem xs x, ?_⟩
      intro z hz
      rcases List.mem_cons.mp hz with h' | h'
      · exact h' ▸ (foldl_min_le xs x).1
      · exact (foldl_min_le xs x).2 z h'

theorem mem_indexesFrom (v : ℚ) :
    ∀ (l : List ℚ) (k i : ℕ), i ∈ indexesFrom v l k ↔ (k ≤ i ∧ l.get? (i - k) = some v) := by
  intro l
  induction l with
  | nil => intro k i; simp [indexesFrom]
  | cons x xs ih =>
      intro k i
      rw [indexesFrom]
      by_cases hv : v = x
      · rw [if_pos hv]
        constructor
        · intro h
          rcases List.mem_cons.mp h with h | h
          · subst h
            exact ⟨le_refl _, by simp [hv]⟩
          · have := (ih (k + 1) i).mp h
            refine ⟨by omega, ?_⟩
            have hik : i - k = (i - (k + 1)) + 1 := by omega
            rw [hik, List.get?_cons_succ]
            exact this.2
        · rintro ⟨hk, hget⟩
          rcases Nat.eq_or_lt_of_le hk with heq | hlt
          · exact heq ▸ List.mem_cons_self _ _
          · apply List.mem_cons_of_mem
            apply (ih (k + 1) i).mpr
            refine ⟨by omega, ?_⟩
            have hik : i - k = (i - (k + 1)) + 1 := by omega
            rw [hik, List.get?_cons_succ] at hget
            exact hget
      · rw [if_neg hv]
        constructor
        · intro h
          have := (ih (k + 1) i).mp h
          refine ⟨by omega, ?_⟩
          have hik : i - k = (i - (k + 1)) + 1 := by omega
          rw [hik, List.get?_cons_succ]
          exact this.2
        · rintro ⟨hk, hget⟩
          rcases Nat.eq_or_lt_of_le hk with heq | hlt
          · subst heq
            simp only [Nat.sub_self, List.get?_cons_zero, Option.some_inj] at hget
            exact absurd hget.symm hv
          · apply (ih (k + 1) i).mpr
            refine ⟨by omega, ?_⟩
            have hik : i - k = (i - (k + 1)) + 1 := by omega
            rw [hik, List.get?_cons_succ] at hget
            exact hget

theorem mem_indexes (l : List ℚ) (v : ℚ) (i : ℕ) :
    i ∈ indexes l v ↔ l.get? i = some v := by
  rw [indexes, mem_indexesFrom]
  simp

theorem getAll_spec (pn : List ℚ) :
    ∀ (idxs : List ℕ), (∀ i ∈ idxs, ∃ z, pn.get? i = some z) →
      ∃ vals, getAll pn idxs = some vals ∧
        (∀ y, y ∈ vals ↔ ∃ i ∈ idxs, pn.get? i = some y) ∧
        vals.length = idxs.length := by
  intro idxs
  induction idxs with
  | nil => intro _; exact ⟨[], rfl, by simp, rfl⟩
  | cons i is ih =>
      intro h
      obtain ⟨z, hz⟩ := h i (List.mem_cons_self _ _)
      obtain ⟨vs, hvs, hmem, hlen⟩ := ih (fun j hj => h j (List.mem_cons_of_mem _ hj))
      refine ⟨z :: vs, ?_, ?_, by simp [hlen]⟩
      · rw [getAll, hz, hvs]
      · intro y
        constructor
        · intro hy
          rcases List.mem_cons.mp hy with h' | h'
          · exact ⟨i, List.mem_cons_self _ _, h' ▸ hz⟩
          · obtain ⟨j, hj, hjv⟩ := (hmem y).mp h'
            exact ⟨j, List.mem_cons_of_mem _ hj, hjv⟩
        · rintro ⟨j, hj, hjv⟩
          rcases List.mem_cons.mp hj with h' | h'
          · subst h'
            rw [hz] at hjv
            exact (Option.some_inj.mp hjv) ▸ List.mem_cons_self _ _
          · exact List.mem_cons_of_mem _ ((hmem y).mpr ⟨j, h', hjv⟩)


theorem kendallTau_eq_run (probF : ℚ → ℕ → ℚ) (p o : List ℚ) (ties : String)
    (et pt ir : Bool) :
    kendallTau probF p o ties et pt ir = some (kendallTauRun probF p o ties et pt ir) := by
  rw [kendallTau, normalize_eq_some, normalize_eq_some]
  rfl

theorem setLoop_eq_run (probF : ℚ → ℕ → ℚ) (ties : String) (et pt ir : Bool) :
    ∀ (segs : List (List ℚ × List ℚ)) (a : SetAcc),
      kendallTauSetLoop probF ties et pt ir segs a =
        some (setRun probF ties et pt ir segs a) := by
  intro segs
  induction segs with
  | nil => intro a; rfl
  | cons s rest ih =>
      intro a
      rw [kendallTauSetLoop, kendallTau_eq_run]
      exact ih (setStep a s (kendallTauRun probF s.1 s.2 ties et pt ir))

theorem setRun_fields (probF : ℚ → ℕ → ℚ) (ties : String) (et pt ir : Bool) :
    ∀ (segs : List (List ℚ × List ℚ)) (a : SetAcc),
      (setRun probF ties et pt ir segs a).concordant =
        a.concordant +
          ((segs.map (fun s => (kendallTauRun probF s.1 s.2 ties et pt ir).concordant)).sum) ∧
      (setRun probF ties et pt ir segs a).discordant =
        a.discordant +
          ((segs.map (fun s => (kendallTauRun probF s.1 s.2 ties et pt ir).discordant)).sum) ∧
      (setRun probF ties et pt ir segs a).segtaus =
        a.segtaus ++
          segs.filterMap (fun s => keptTau (kendallTauRun probF s.1 s.2 ties et pt ir)) := by
  intro segs
  induction segs with
  | nil => intro a; simp [setRun]
  | cons s rest ih =>
      intro a
      have hstep := ih (setStep a s (kendallTauRun probF s.1 s.2 ties et pt ir))
      have hcons : setRun probF ties et pt ir (s :: rest) a =
          setRun probF ties et pt ir rest
            (setStep a s (kendallTauRun probF s.1 s.2 ties et pt ir)) := rfl
      refine ⟨?_, ?_, ?_⟩
      · rw [hcons, hstep.1, List.map_cons, List.sum_cons]
        simp only [setStep]
        omega
      · rw [hcons, hstep.2.1, List.map_cons, List.sum_cons]
        simp only [setStep]
        omega
      · rw [hcons, hstep.2.2, List.filterMap_cons]
        simp only [setStep]
        cases hk : keptTau (kendallTauRun probF s.1 s.2 ties et pt ir) with
        | none => simp [hk]
        | some t => simp [hk]


/-! ## Claim theorems -/

/-- C7: normalizing the raw vector `[1,1,2,3]` yields `[2,2,3,4]` under the
`ceiling` policy, `[1,1,3,4]` under `floor`, `[1,1,2,3]` under `minimize`, and
`[1.5,1.5,3,4]` under `middle`. -/
theorem claim_C7_tie_scenarios :
    RankEval.normalize [1, 1, 2, 3] "ceiling" = some [2, 2, 3, 4] ∧
    RankEval.normalize [1, 1, 2, 3] "floor" = some [1, 1, 3, 4] ∧
    RankEval.normalize [1, 1, 2, 3] "minimize" = some [1, 1, 2, 3] ∧
    RankEval.normalize [1, 1, 2, 3] "middle" = some [3/2, 3/2, 3, 4] := by
  refine ⟨?_, ?_, ?_, ?_⟩ <;>
    norm_num [RankEval.normalize, normalizeRun, sortedDistinct, pyDedup, normalizeLoop,
      handleTie, assign, List.insertionSort, List.orderedInsert, List.count_cons,
      List.count_nil, List.zipWith_cons_cons, List.replicate_succ, str_c_min, str_c_flr,
      str_c_c, str_f_min, str_f_f, str_m_m, str_mid_min, str_mid_flr, str_mid_c,
      str_mid_mid]

/-- C1 (failing-input evaluation): with default kwargs, `kendall_tau` on
predicted `[1,2]` and gold `[-1,1]` counts the single index pair as concordant
and valid (`concordant = 1`, `valid_pairs = 1`, `tau = 1`) although one gold
value is the sentinel `-1`: the vectors are normalized before the sentinel test,
which turns `-1` into rank `1`, so the exclusion never fires. -/
theorem claim_C1_sentinel_pair_counted :
    (kendallTau (fun _ _ => 1) [1, 2] [-1, 1] "ceiling" true true false).map
      (fun r => (r.concordant, r.discordant, r.all_pairs_count, r.tau)) =
      some (1, 0, 1, some 1) := by
  norm_num [kendallTau, kendallTauCore, combPairs, ktStep, ktClass, RankEval.normalize,
    normalizeRun, sortedDistinct, pyDedup, normalizeLoop, handleTie, assign,
    List.insertionSort, List.orderedInsert, List.count_cons, List.count_nil,
    List.zipWith_cons_cons, List.replicate_succ, str_c_min, str_c_flr, str_c_c]

/-- C5 (failing-input evaluation): `invert` raises `TypeError` on every input —
its call `normalize(inverted_ranking_list, kwargs)` passes the kwargs dict as a
second positional argument to a function with a single positional parameter —
instead of returning the normalization of the negated vector. -/
theorem claim_C5_invert_raises (l : List ℚ) (ties : String) :
    invert l ties =
      Except.error "TypeError: normalize() takes exactly 1 argument (2 given)" := rfl

/-- C2 (failing-input evaluation): on predicted `[1,1,3]` vs gold `[1,2,3]` the
ceiling-normalized predicted ranks are `[2,2,3]` — not a permutation of `1..3`:
gain slot 0 stays unfilled (holding `0`) and slot 1 is written twice.  The
assert `min(gains) >= 0` still passes, because an unfilled slot holds gain `0`
and every filled gain is positive, so `_calculate_gains` returns the silently
wrong array `[0, 3/8, 1/8]` and `ndgc_err` returns `(1, 41/192)` normally
instead of failing loudly. -/
theorem claim_C2_silent_on_duplicate_ranks :
    calculateGains [2, 2, 3] [1, 2, 3] = Except.ok [0, 3/8, 1/8] ∧
    ndgcErr (fun _ => 1) [1, 1, 3] [1, 2, 3] none = Except.ok (1, 41/192) := by
  constructor
  · norm_num [calculateGains, calcGainsLoop, listSet, pyMin,
      (show List.range 3 = [0,1,2] from by decide), List.replicate_succ, min_def,
      toNat_lit_0, toNat_lit_1, toNat_lit_2, List.set_cons_succ, List.set_cons_zero]
  · norm_num [ndgcErr, RankEval.normalize, normalizeRun, sortedDistinct, pyDedup,
      normalizeLoop, handleTie, assign, List.insertionSort, List.orderedInsert,
      List.count_cons, List.count_nil, List.zipWith_cons_cons, List.replicate_succ,
      str_c_min, str_c_flr, str_c_c, intRanking, round_eq,
      calculateGains, calcGainsLoop, listSet, pyMin,
      (show List.range 3 = [0,1,2] from by decide), min_def,
      toNat_lit_0, toNat_lit_1, toNat_lit_2, List.set_cons_succ, List.set_cons_zero,
      errLoop, dcgSum, idcgF, List.take_succ_cons, List.take_zero]

/-- C4 (failing-input evaluation): on the two segments predicted
`[[1,1,2],[1,2,3]]` vs gold `[[1,2,3],[1,2,3]]` there is 1 predicted-tie pair
among 6 pairs overall and 1 of the 2 segments contains a predicted tie, yet
`kendall_tau_set` reports `tau_predicted_ties_per = 0` (it divides the LAST
segment's `predicted_ties`, not the overall total, by the total pair count) and
`tau_sentence_ties_per = 100/3` (it divides by the last segment's length `3`,
not by the number of segments `2`); the claim expects `100/6` and `50`. -/
theorem claim_C4_percentages_use_loop_leftovers :
    (kendallTauSet (fun _ _ => 1) [[1, 1, 2], [1, 2, 3]] [[1, 2, 3], [1, 2, 3]]
        "ceiling" true true false).toOption.map
      (fun s => (s.tau_predicted_ties, s.tau_all_pairs, s.tau_predicted_ties_per,
        s.tau_sentence_ties, s.tau_sentence_ties_per)) =
      some (1, 6, 0, 1, 100/3) := by
  norm_num [kendallTauSet, kendallTauSetLoop, setStep, keptTau, keptProb, kendallTau,
    kendallTauCore, combPairs, ktStep, ktClass, RankEval.normalize, normalizeRun,
    sortedDistinct, pyDedup, normalizeLoop, handleTie, assign, List.insertionSort,
    List.orderedInsert, List.count_cons, List.count_nil, List.zipWith_cons_cons,
    List.replicate_succ, str_c_min, str_c_flr, str_c_c, Except.toOption]

/-- C3 counterexample: the second segment (predicted `[1,4,3,2]`, gold
`[1,2,3,4]`) has 6 valid pairs and a perfectly defined tau of `0`, yet
`kendall_tau_set` reports `tau_avg_seg = 1` — the average over the first segment
only, because `if segtau and segprob:` treats the float `0.0` as falsy — where
the claim (average over all defined-tau segments) demands `(1+0)/2 = 1/2`. -/
theorem claim_C3_counterexample_zero_tau_dropped :
    (kendallTau (fun _ _ => 1) [1, 4, 3, 2] [1, 2, 3, 4] "ceiling" true true false).map
      (fun r => (r.tau, r.all_pairs_count)) = some (some 0, 6) ∧
    (kendallTauSet (fun _ _ => 1) [[1, 2], [1, 4, 3, 2]] [[1, 2], [1, 2, 3, 4]]
        "ceiling" true true false).toOption.map (fun s => s.tau_avg_seg) =
      some (some 1) ∧ (1 : ℚ) ≠ (1 + 0) / 2 := by
  refine ⟨?_, ?_, by norm_num⟩ <;>
  norm_num [kendallTauSet, kendallTauSetLoop, setStep, keptTau, keptProb, kendallTau,
    kendallTauCore, combPairs, ktStep, ktClass, RankEval.normalize, normalizeRun,
    sortedDistinct, pyDedup, normalizeLoop, handleTie, assign, List.insertionSort,
    List.orderedInsert, List.count_cons, List.count_nil, List.zipWith_cons_cons,
    List.replicate_succ, str_c_min, str_c_flr, str_c_c, Except.toOption]

/-- C6 (failing-input evaluation): `avg_ndgc_err` without an explicit `k` passes
cut-off 2 (the FIRST segment's length, cached in `kwargs` by `setdefault`) to
BOTH segments of lengths 2 and 3, so the averaged NDCG is `22/27`; computing
each segment with its own length as cut-off — as the claim states — yields
`50/57` (the spec-modelled variant).  The ERR average is unaffected because ERR
ignores the cut-off. -/
theorem claim_C6_cutoff_cached_from_first_segment :
    avgNdgcErrKs [([1, 2], [1, 2]), ([2, 3, 1], [1, 2, 3])] none = [2, 2] ∧
    avgNdgcErr (fun m => (m : ℚ)) [[1, 2], [2, 3, 1]] [[1, 2], [1, 2, 3]] none =
      Except.ok (some (22/27), some (667/1024)) ∧
    avgNdgcErrSpecModel (fun m => (m : ℚ)) [[1, 2], [2, 3, 1]] [[1, 2], [1, 2, 3]] none =
      Except.ok (some (50/57), some (667/1024)) := by
  refine ⟨by norm_num [avgNdgcErrKs], ?_, ?_⟩ <;>
  norm_num [avgNdgcErr, avgNdgcErrLoop, avgNdgcErrSpecModel, avgNdgcErrSpecModel.loop,
    ndgcErr, RankEval.normalize, normalizeRun, sortedDistinct, pyDedup,
    normalizeLoop, handleTie, assign, List.insertionSort, List.orderedInsert,
    List.count_cons, List.count_nil, List.zipWith_cons_cons, List.replicate_succ,
    str_c_min, str_c_flr, str_c_c, intRanking, round_eq,
    calculateGains, calcGainsLoop, listSet, pyMin,
    (show List.range 3 = [0,1,2] from by decide),
    (show List.range 2 = [0,1] from by decide), min_def,
    toNat_lit_0, toNat_lit_1, toNat_lit_2, List.set_cons_succ, List.set_cons_zero,
    errLoop, dcgSum, idcgF, List.take_succ_cons, List.take_zero]

/-- C8 counterexample: on predicted `[1,1]` vs gold `[1,2]` with the default
`ceiling` policy, item 0 is both a system top pick (its normalized predicted
rank `2` is the minimum of `[2,2]`) and the gold top pick (gold rank `1` is the
minimum of `[1,2]`), yet `reciprocal_rank` returns `1/2`, not `1.0`: the tied
normalized predicted ranks are `2`, so the reciprocal is `1/2` even though the
top picks coincide. -/
theorem claim_C8_counterexample_tied_top_pick :
    reciprocalRank [1, 1] [1, 2] "ceiling" = some (1/2) ∧
    pyMin (normalizeRun [1, 1] "ceiling") = some 2 ∧
    (0 : ℕ) ∈ indexes (normalizeRun [1, 1] "ceiling") 2 ∧
    pyMin (normalizeRun [1, 2] "ceiling") = some 1 ∧
    (0 : ℕ) ∈ indexes (normalizeRun [1, 2] "ceiling") 1 ∧
    ((1 : ℚ)/2) ≠ 1 := by
  refine ⟨?_, ?_, ?_, ?_, ?_, by norm_num⟩ <;>
  norm_num [reciprocalRank, RankEval.normalize, normalizeRun, sortedDistinct, pyDedup,
    normalizeLoop, handleTie, assign, List.insertionSort, List.orderedInsert,
    List.count_cons, List.count_nil, List.zipWith_cons_cons, List.replicate_succ,
    str_c_min, str_c_flr, str_c_c, pyMin, indexes, indexesFrom, getAll, min_def]

/-- C9: `normalize` is order- and tie-preserving under every tie policy: if two
positions hold equal raw values their normalized values are equal, and if the
raw value at `i` is strictly smaller than at `j` then so is the normalized
value (stated over `normalizeRun`, the list the source's `normalize` always
returns; see `claim_C10_normalize_total`). -/
theorem claim_C9_normalize_order_preserving (l : List ℚ) (ties : String) (i j : ℕ)
    (x y : ℚ) (hx : l.get? i = some x) (hy : l.get? j = some y) :
    ∃ a b, (normalizeRun l ties).get? i = some a ∧ (normalizeRun l ties).get? j = some b ∧
      (x = y → a = b) ∧ (x < y → a < b) := by
  refine ⟨loopVal l ties (sortedDistinct l) 0 x, loopVal l ties (sortedDistinct l) 0 y,
    normalizeRun_get? l ties i x hx, normalizeRun_get? l ties j y hy, ?_, ?_⟩
  · intro h; rw [h]
  · intro h
    exact loopVal_lt l ties (sortedDistinct l) (pairwise_lt_sortedDistinct l) 0 x y
      (mem_sortedDistinct.mpr (List.get?_mem hx))
      (mem_sortedDistinct.mpr (List.get?_mem hy)) h

/-- C9 witness: on the raw vector `[2, 1]` under `ceiling`, position 1 (raw 1)
receives a strictly smaller normalized rank than position 0 (raw 2). -/
theorem claim_C9_witness :
    ∃ a b, (normalizeRun [2, 1] "ceiling").get? 1 = some a ∧
      (normalizeRun [2, 1] "ceiling").get? 0 = some b ∧
      ((1 : ℚ) = 2 → a = b) ∧ ((1 : ℚ) < 2 → a < b) :=
  claim_C9_normalize_order_preserving [2, 1] "ceiling" 1 0 1 2 rfl rfl

/-- C10: `normalize` is total and shape-preserving: for every input vector and
every tie policy the final no-holes assertion passes (the function returns the
computed list rather than failing), the output has the same length as the
input, every output value is at least 1 (so no position is left holding the
initial 0), and the empty input yields the empty output. -/
theorem claim_C10_normalize_total (l : List ℚ) (ties : String) :
    RankEval.normalize l ties = some (normalizeRun l ties) ∧
    (normalizeRun l ties).length = l.length ∧
    (normalizeRun l ties).all (fun x => 1 ≤ x) = true ∧
    normalizeRun [] ties = [] := by
  refine ⟨normalize_eq_some l ties, length_normalizeRun l ties, ?_, rfl⟩
  rw [List.all_eq_true]
  intro x hx
  exact decide_eq_true_eq.mpr (normalizeRun_one_le l ties x hx)


/-- C8 (amended): for equal-length non-empty vectors, `reciprocal_rank` (default
`ceiling` policy) returns a value `r` with `0 < r ≤ 1`, and `r = 1` exactly when
some item holding the best (minimum) normalized gold rank has normalized
predicted rank exactly `1` — i.e. the system's top pick is an untied strict
favourite that coincides with a gold top pick.  (The unamended claim — `r = 1`
whenever the top picks coincide — fails when the predicted top is tied; see the
counterexample.) -/
theorem claim_C8_amended (predicted original : List ℚ)
    (hlen : predicted.length = original.length) (hne : original ≠ []) :
    ∃ r, reciprocalRank predicted original "ceiling" = some r ∧ 0 < r ∧ r ≤ 1 ∧
      (r = 1 ↔ ∃ best, pyMin (normalizeRun original "ceiling") = some best ∧
        ∃ i ∈ indexes (normalizeRun original "ceiling") best,
          (normalizeRun predicted "ceiling").get? i = some 1) := by
  have honlen : (normalizeRun original "ceiling").length = original.length :=
    length_normalizeRun original "ceiling"
  have hpnlen : (normalizeRun predicted "ceiling").length = original.length := by
    rw [length_normalizeRun]; exact hlen
  have honne : normalizeRun original "ceiling" ≠ [] := by
    intro h
    apply hne
    apply List.length_eq_zero.mp
    rw [← honlen, h]
    rfl
  obtain ⟨best, hbest, hbmem, hble⟩ := pyMin_spec _ honne
  obtain ⟨i0, hi0⟩ := List.mem_iff_get?.mp hbmem
  have hi0idx : i0 ∈ indexes (normalizeRun original "ceiling") best :=
    (mem_indexes _ _ _).mpr hi0
  have hpre : ∀ i ∈ indexes (normalizeRun original "ceiling") best,
      ∃ z, (normalizeRun predicted "ceiling").get? i = some z := by
    intro i hi
    have hgi : (normalizeRun original "ceiling").get? i = some best :=
      (mem_indexes _ _ _).mp hi
    have hilt : i < (normalizeRun original "ceiling").length := by
      rcases List.get?_eq_some.mp hgi with ⟨h, _⟩
      exact h
    have hilt' : i < (normalizeRun predicted "ceiling").length := by
      rw [hpnlen]
      rw [honlen] at hilt
      exact hilt
    exact ⟨_, List.get?_eq_get hilt'⟩
  obtain ⟨vals, hvals, hvmem, hvlen⟩ := getAll_spec _ _ hpre
  have hvne : vals ≠ [] := by
    intro h
    rw [h] at hvlen
    exact (List.ne_nil_of_mem hi0idx) (List.length_eq_zero.mp hvlen.symm)
  obtain ⟨m, hm, hmmem, hmle⟩ := pyMin_spec _ hvne
  have hmone : 1 ≤ m := by
    obtain ⟨i, _, hiv⟩ := (hvmem m).mp hmmem
    exact normalizeRun_one_le predicted "ceiling" m (List.get?_mem hiv)
  have hmpos : 0 < m := by linarith
  have hrr : reciprocalRank predicted original "ceiling" = some (1 / m) := by
    rw [reciprocalRank, normalize_eq_some, normalize_eq_some]
    simp only
    rw [hbest]
    simp only
    rw [hvals]
    simp only
    rw [hm]
  refine ⟨1 / m, hrr, by positivity, (div_le_one hmpos).mpr hmone, ?_⟩
  constructor
  · intro h1
    have hmeq : m = 1 := by
      have := (div_eq_one_iff_eq (ne_of_gt hmpos)).mp h1
      linarith
    obtain ⟨i, hiidx, hival⟩ := (hvmem m).mp hmmem
    exact ⟨best, hbest, i, hiidx, hmeq ▸ hival⟩
  · rintro ⟨best', hbest', i, hiidx, hival⟩
    have hbeq : best' = best := by
      rw [hbest] at hbest'
      exact (Option.some_inj.mp hbest').symm
    subst hbeq
    have hone : (1 : ℚ) ∈ vals := (hvmem 1).mpr ⟨i, hiidx, hival⟩
    have : m ≤ 1 := hmle 1 hone
    have hmeq : m = 1 := le_antisymm this hmone
    rw [hmeq]
    norm_num

/-- C8 amended witness: predicted `[1,2]`, gold `[1,2]` — the untied system
favourite holds the best gold rank, so the reciprocal rank is defined, lies in
`(0, 1]`, and equals `1` per the amended criterion. -/
theorem claim_C8_amended_witness :
    ∃ r, reciprocalRank [1, 2] [1, 2] "ceiling" = some r ∧ 0 < r ∧ r ≤ 1 ∧
      (r = 1 ↔ ∃ best, pyMin (normalizeRun [1, 2] "ceiling") = some best ∧
        ∃ i ∈ indexes (normalizeRun [1, 2] "ceiling") best,
          (normalizeRun [1, 2] "ceiling").get? i = some 1) :=
  claim_C8_amended [1, 2] [1, 2] rfl (by simp)


/-- C3 (amended): whenever `kendall_tau_set` returns, (a) its pooled
concordant/discordant counters are the sums of the per-segment counts and the
pooled `tau` is `(Σconcordant - Σdiscordant) / (Σconcordant + Σdiscordant)`;
(b) `tau_avg_seg` averages the taus of exactly those segments whose tau AND
prob are defined and non-zero (Python truthiness of `if segtau and segprob:`) —
not, as the unamended claim says, of all segments with defined tau: a segment
with tau equal to `0` is also excluded (see the counterexample). -/
theorem claim_C3_amended (probF : ℚ → ℕ → ℚ) (preds origs : List (List ℚ))
    (ties : String) (et pt ir : Bool) (stats : SetStats)
    (hok : kendallTauSet probF preds origs ties et pt ir = Except.ok stats) :
    stats.tau_concordant =
      (((preds.zip origs).map
        (fun s => (kendallTauRun probF s.1 s.2 ties et pt ir).concordant)).sum) ∧
    stats.tau_discordant =
      (((preds.zip origs).map
        (fun s => (kendallTauRun probF s.1 s.2 ties et pt ir).discordant)).sum) ∧
    stats.tau = ((stats.tau_concordant : ℚ) - (stats.tau_discordant : ℚ)) /
      ((stats.tau_concordant : ℚ) + (stats.tau_discordant : ℚ)) ∧
    stats.tau_avg_seg =
      (let kept := (preds.zip origs).filterMap
        (fun s => keptTau (kendallTauRun probF s.1 s.2 ties et pt ir));
       if kept.isEmpty then none else some (kept.sum / (kept.length : ℚ))) := by
  rw [kendallTauSet, setLoop_eq_run] at hok
  have hfields := setRun_fields probF ties et pt ir (preds.zip origs)
    ⟨[], [], 0, 0, 0, 0, 0, 0, 0, 0, 0⟩
  set a := setRun probF ties et pt ir (preds.zip origs)
    ⟨[], [], 0, 0, 0, 0, 0, 0, 0, 0, 0⟩ with ha
  obtain ⟨hc, hd, hts⟩ := hfields
  simp only at hc hd hts
  rw [Nat.zero_add] at hc hd
  rw [List.nil_append] at hts
  dsimp only at hok
  by_cases h1 : a.concordant + a.discordant = 0
  · rw [if_pos h1] at hok
    exact absurd hok (by simp)
  rw [if_neg h1] at hok
  by_cases h2 : a.pairs_overall = 0
  · rw [if_pos h2] at hok
    exact absurd hok (by simp)
  rw [if_neg h2] at hok
  by_cases h3 : a.last_len = 0
  · rw [if_pos h3] at hok
    exact absurd hok (by simp)
  rw [if_neg h3] at hok
  have hst := Except.ok.inj hok
  subst hst
  refine ⟨hc, hd, ?_, ?_⟩
  · simp only [hc, hd]
  · simp only [hts]


/-- C3 amended witness: a single perfectly-ordered segment — the pooled counts
equal the per-segment sums, the pooled tau is `(1-0)/(1+0)`, and the average
covers the one kept segment. -/
theorem claim_C3_amended_witness :
    (SetStats.mk 1 1 (some 1) 1 1 0 1 1 0 0 0 0 0).tau_concordant =
      ((([[1, 2]] : List (List ℚ)).zip [[1, 2]]).map
        (fun s => (kendallTauRun (fun _ _ => 1) s.1 s.2 "ceiling" true true false).concordant)).sum ∧
    (SetStats.mk 1 1 (some 1) 1 1 0 1 1 0 0 0 0 0).tau_discordant =
      ((([[1, 2]] : List (List ℚ)).zip [[1, 2]]).map
        (fun s => (kendallTauRun (fun _ _ => 1) s.1 s.2 "ceiling" true true false).discordant)).sum ∧
    (SetStats.mk 1 1 (some 1) 1 1 0 1 1 0 0 0 0 0).tau =
      (((SetStats.mk 1 1 (some 1) 1 1 0 1 1 0 0 0 0 0).tau_concordant : ℚ) -
        ((SetStats.mk 1 1 (some 1) 1 1 0 1 1 0 0 0 0 0).tau_discordant : ℚ)) /
      (((SetStats.mk 1 1 (some 1) 1 1 0 1 1 0 0 0 0 0).tau_concordant : ℚ) +
        ((SetStats.mk 1 1 (some 1) 1 1 0 1 1 0 0 0 0 0).tau_discordant : ℚ)) ∧
    (SetStats.mk 1 1 (some 1) 1 1 0 1 1 0 0 0 0 0).tau_avg_seg =
      (let kept := (([[1, 2]] : List (List ℚ)).zip [[1, 2]]).filterMap
        (fun s => keptTau (kendallTauRun (fun _ _ => 1) s.1 s.2 "ceiling" true true false));
       if kept.isEmpty then none else some (kept.sum / (kept.length : ℚ))) :=
  claim_C3_amended (fun _ _ => 1) [[1, 2]] [[1, 2]] "ceiling" true true false
    (SetStats.mk 1 1 (some 1) 1 1 0 1 1 0 0 0 0 0)
    (by norm_num [kendallTauSet, kendallTauSetLoop, setStep, keptTau, keptProb, kendallTau,
      kendallTauCore, combPairs, ktStep, ktClass, RankEval.normalize, normalizeRun,
      sortedDistinct, pyDedup, normalizeLoop, handleTie, assign, List.insertionSort,
      List.orderedInsert, List.count_cons, List.count_nil, List.zipWith_cons_cons,
      List.replicate_succ, str_c_min, str_c_flr, str_c_c])


end RankEval
